import Mathlib

/-!
Verification of the word-normalization and bulk-ingestion pipeline of the
german-vocab-app repository (src/app.py).

The embedding models Python strings as Lean `String`s (lists of characters)
and re-implements the Python string primitives used by the source
(`str.strip`, `str.lower`, `str.upper`, `str.split`, substring membership,
`str.startswith`, slicing) as structurally recursive functions, so that
every definition evaluates by kernel reduction.

The parts of `app.py` that are embedded:
  - `get_word_details` (lines 74-119): response parsing and validation;
    the OpenAI call is abstracted as an oracle `respond : String → Option String`
    where `none` models an exception raised by the service call (which the
    surrounding `try/except` converts to a `None` result);
  - the bulk ingestion loop (lines 142-175), as a state machine over
    `BatchState` (existing-words set, store contents, success counter, and
    an instrumentation field recording which tokens were sent to the model);
  - the tokenizer for the bulk input (line 133);
  - the Anki export (lines 202-210).
-/

/-- Python whitespace test for `str.strip` (the ASCII whitespace characters;
`str.strip` with no argument strips exactly these in the ASCII range). -/
def isPySpace (c : Char) : Bool :=
  c == ' ' || c == '\t' || c == '\n' || c == '\r' || c == '\x0b' || c == '\x0c'

/-- Character-list test: the first list is an initial segment of the second. -/
def isPre : List Char → List Char → Bool
  | [], _ => true
  | _ :: _, [] => false
  | a :: as, b :: bs => a == b && isPre as bs

/-- Character-list test: `pat` occurs as a contiguous run inside the second
list (Python's `pat in s`). -/
def containsSub (pat : List Char) : List Char → Bool
  | [] => pat.isEmpty
  | c :: rest => isPre pat (c :: rest) || containsSub pat rest

/-- Python `s.split(sep)` for a one-character separator; always returns at
least one (possibly empty) piece, like Python. -/
def splitChar (sep : Char) : List Char → List (List Char)
  | [] => [[]]
  | c :: rest =>
    if c == sep then [] :: splitChar sep rest
    else
      match splitChar sep rest with
      | [] => [[c]]
      | h :: t => (c :: h) :: t

/-- Python `s.split(" | ")`: splits on the three-character separator
space, pipe, space, leftmost-first and non-overlapping. -/
def splitPipeSpaced : List Char → List (List Char)
  | ' ' :: '|' :: ' ' :: rest => [] :: splitPipeSpaced rest
  | c :: rest =>
    match splitPipeSpaced rest with
    | [] => [[c]]
    | h :: t => (c :: h) :: t
  | [] => [[]]

/-- Python `s.strip()`: drop leading and trailing whitespace characters. -/
def trimChars (l : List Char) : List Char :=
  (((l.dropWhile isPySpace).reverse.dropWhile isPySpace)).reverse

/-- Python `pat in s` on strings. -/
def containsStr (s pat : String) : Bool := containsSub pat.data s.data

/-- Python `s.strip()` on strings. -/
def pyStrip (s : String) : String := String.mk (trimChars s.data)

/-- Python `s.lower()` (ASCII case mapping). -/
def pyLower (s : String) : String := String.mk (s.data.map Char.toLower)

/-- Python `s.upper()` (ASCII case mapping). -/
def pyUpper (s : String) : String := String.mk (s.data.map Char.toUpper)

/-- Python `s.startswith(p)`. -/
def pyStartsWith (s p : String) : Bool := isPre p.data s.data

/-- Python slicing `s[n:]` (by code points). -/
def pyDrop (n : Nat) (s : String) : String := String.mk (s.data.drop n)

/-- Python `s.split(sep)` for a one-character separator, on strings. -/
def pySplitChar (sep : Char) (s : String) : List String :=
  (splitChar sep s.data).map String.mk

/-- Python `s.split(" | ")` on strings. -/
def pySplitPipeSpaced (s : String) : List String :=
  (splitPipeSpaced s.data).map String.mk

/-! ## Lemmatizer Client: `get_word_details` (app.py lines 74-119) -/

/-- The lines of the (stripped) service response:
`raw_answer = response.choices[0].message.content.strip()` followed by
`lines = raw_answer.split('\n')` (app.py lines 95-97). -/
def responseLines (content : String) : List String :=
  pySplitChar '\n' (pyStrip content)

/-- The header-skipping scan of app.py lines 98-103: skip every line that
contains `"Article | Word"`, return the first remaining line whose strip is
non-empty (stripped); `""` if there is none. -/
def findDataLine : List String → String
  | [] => ""
  | line :: rest =>
    if containsStr line "Article | Word" then findDataLine rest
    else if pyStrip line != "" then pyStrip line
    else findDataLine rest

/-- Parsing of the located data line, app.py lines 105-117:
the INVALID check, the two delimiter spellings, per-field stripping, the
5-field padding, and the article-prefix repair on the word field.  The
`none` in the final match models the `IndexError` raised by `parts[1]`
when the split yields fewer than two fields; that exception is caught by
the surrounding `try/except` of `get_word_details`, which returns `None`. -/
def parseDataLine (final_data_line : String) : Option (List String) :=
  if containsStr (pyUpper final_data_line) "INVALID" then none
  else
    let parts0 :=
      if containsStr final_data_line " | " then pySplitPipeSpaced final_data_line
      else pySplitChar '|' final_data_line
    let parts1 := parts0.map pyStrip
    let parts := if parts1.length = 5 then parts1 ++ [""] else parts1
    match parts with
    | p0 :: p1 :: rest =>
      let article := pyLower p0
      let word := p1
      if pyStartsWith (pyLower word) (article ++ " ") &&
          (article == "der" || article == "die" || article == "das") then
        some (p0 :: pyStrip (pyDrop article.length word) :: rest)
      else
        some (p0 :: p1 :: rest)
    | _ => none

/-- The pure part of `get_word_details`: from the text content of a
successful service response to the parsed record (app.py lines 95-117). -/
def get_word_details_content (content : String) : Option (List String) :=
  parseDataLine (findDataLine (responseLines content))

/-- `get_word_details` (app.py lines 74-119).  The service call is the
oracle `respond`; `respond user_input = none` models the call raising an
exception, which the `try/except` turns into a `None` result. -/
def get_word_details (respond : String → Option String) (user_input : String) :
    Option (List String) :=
  match respond user_input with
  | none => none
  | some content => get_word_details_content content

/-! ## Bulk ingestion loop (app.py lines 142-175) -/

/-- Per-token outcome of the ingestion loop, following the toasts of
app.py lines 155, 163, 166 and 172.  Each outcome carries the raw token it
belongs to, so that the order correspondence between inputs and outcomes
can be stated. -/
inductive Outcome where
  | skippedDuplicate (token : String)
  | skippedDuplicateResolved (token : String) (cleanWord : String)
  | rejectedInvalid (token : String)
  | accepted (token : String) (record : List String)
deriving DecidableEq, Repr

/-- The raw token an outcome reports on. -/
def Outcome.token : Outcome → String
  | .skippedDuplicate t => t
  | .skippedDuplicateResolved t _ => t
  | .rejectedInvalid t => t
  | .accepted t _ => t

/-- Mutable state of the bulk ingestion loop: `existing` is the
`existing_words` list (lowercased words, app.py lines 143-145, 169-170),
`store` is the sequence of rows of the backing sheet (each row a record,
app.py `save_new_word`), `success_count` as in app.py line 147, and
`calls` records, as instrumentation, the tokens that were passed to
`get_word_details` (i.e. for which the model was called). -/
structure BatchState where
  existing : List String
  store : List (List String)
  success_count : Nat
  calls : List String
deriving DecidableEq, Repr

/-- The lowercased word key of a stored record: the store's `Word` column
(index 1) lowercased, as in `df["Word"].astype(str).str.lower()`
(app.py line 145). -/
def wordKey (r : List String) : String := pyLower (r.getD 1 "")

/-- One iteration of the ingestion loop body (app.py lines 153-172) on a
single token.  Returns the new state and `some` outcome; the `none`
outcome models the uncaught `IndexError` that `details[1]` (line 161)
would raise if `get_word_details` ever returned a non-empty list with
fewer than two elements — that exception is not caught in the loop and
would abort the batch.  A returned empty list is falsy in Python, so it
takes the `else` (invalid) branch of line 159. -/
def processWord (respond : String → Option String) (st : BatchState)
    (word : String) : BatchState × Option Outcome :=
  if pyLower word ∈ st.existing then
    (st, some (.skippedDuplicate word))
  else
    let st1 : BatchState := { st with calls := st.calls ++ [word] }
    match get_word_details respond word with
    | some (p0 :: p1 :: rest) =>
      let clean_word := p1
      if pyLower clean_word ∈ st1.existing then
        (st1, some (.skippedDuplicateResolved word clean_word))
      else
        ({ st1 with
            store := st1.store ++ [p0 :: p1 :: rest],
            success_count := st1.success_count + 1,
            existing := st1.existing ++ [pyLower clean_word] },
         some (.accepted word (p0 :: p1 :: rest)))
    | some [_] => (st1, none)
    | some [] => (st1, some (.rejectedInvalid word))
    | none => (st1, some (.rejectedInvalid word))

/-- The bulk ingestion loop (app.py lines 149-175): fold `processWord`
over the token list in input order, collecting the per-token outcomes.
An uncaught exception (`processWord` outcome `none`) stops the loop,
modelling a batch abort. -/
def runBatch (respond : String → Option String) :
    List String → BatchState → BatchState × List Outcome
  | [], st => (st, [])
  | w :: rest, st =>
    match processWord respond st w with
    | (st1, some o) =>
      let next := runBatch respond rest st1
      (next.1, o :: next.2)
    | (st1, none) => (st1, [])

/-- The bulk-input tokenizer (app.py line 133):
`[w.strip() for w in raw_text.replace('\n', ',').split(',') if w.strip()]`. -/
def word_list (raw_text : String) : List String :=
  let replaced := String.mk (raw_text.data.map fun c => if c == '\n' then ',' else c)
  let pieces := pySplitChar ',' replaced
  (pieces.filter fun w => pyStrip w != "").map fun w => pyStrip w

/-! ## Anki export (app.py lines 202-210) -/

/-- Front of a card (app.py line 204):
`f"{x['Article']} {x['Word']}" if x['Article'] != '-' else x['Word']`. -/
def ankiFront (r : List String) : String :=
  if r.getD 0 "" != "-" then r.getD 0 "" ++ " " ++ r.getD 1 "" else r.getD 1 ""

/-- Back of a card (app.py line 207):
`f"{x['Hungarian']}<br><br>Plural: {x['Plural']}<br>🇩🇪 {x['Sentence_DE']}<br>🇭🇺 {x['Sentence_HU']}"`. -/
def ankiBack (r : List String) : String :=
  r.getD 3 "" ++ "<br><br>Plural: " ++ r.getD 2 "" ++ "<br>🇩🇪 " ++ r.getD 4 ""
    ++ "<br>🇭🇺 " ++ r.getD 5 ""

/-- The per-record front/back pairs, in store order (app.py lines 202-207). -/
def toFlashcards (records : List (List String)) : List (String × String) :=
  records.map fun r => (ankiFront r, ankiBack r)

/-- CSV field serialization with minimal quoting, as the `csv` module used
by `to_csv` does: a field containing the separator, a double quote or a
line break is wrapped in double quotes with inner quotes doubled. -/
def csvField (s : String) : String :=
  if s.data.contains ';' || s.data.contains '"' || s.data.contains '\n'
      || s.data.contains '\r' then
    "\"" ++ String.mk (s.data.flatMap fun c => if c == '"' then ['"', '"'] else [c]) ++ "\""
  else s

/-- The serialized Anki export (app.py line 210):
`anki_df.to_csv(index=False, header=False, sep=';')` — one `front;back`
line per record, newline-terminated, no header row. -/
def ankiCsv (records : List (List String)) : String :=
  String.join ((toFlashcards records).map fun p =>
    csvField p.1 ++ ";" ++ csvField p.2 ++ "\n")

/-! ## Spec-side definitions

These transcribe the spec's own wording (spec.md §4.1 points 3-5), to be
compared with the code-side `parseDataLine` by refinement theorems. -/

/-- Field splitting as the spec words it (spec.md §4.1 points 3-4): split
on `" | "` when that spelling is present, otherwise on bare `"|"`; trim
each field; if exactly 5 fields result, append an empty 6th field. -/
def splitFieldsSpec (line : String) : List String :=
  let raw :=
    if containsStr line " | " then pySplitPipeSpaced line else pySplitChar '|' line
  let trimmed := raw.map pyStrip
  if trimmed.length = 5 then trimmed ++ [""] else trimmed

/-- Word-field post-processing as the spec words it (spec.md §4.1 point 5):
if the word field starts, case-insensitively, with the resolved article
followed by a space and the article is one of the three noun articles,
strip that article prefix (and surrounding whitespace) from the word
field; otherwise leave the fields unchanged.  With fewer than two fields
there is no word field and the result is the invalid signal. -/
def fixWordSpec : List String → Option (List String)
  | p0 :: p1 :: rest =>
    let article := pyLower p0
    if pyStartsWith (pyLower p1) (article ++ " ") &&
        (article == "der" || article == "die" || article == "das") then
      some (p0 :: pyStrip (pyDrop article.length p1) :: rest)
    else
      some (p0 :: p1 :: rest)
  | _ => none

/-- Flashcard construction as the spec words it (spec.md §4.3): front is
article, space, word unless the article is the sentinel `-`; back is the
translation, the labeled plural and the two labeled example sentences
joined by the `<br>` line-break marker. -/
def toFlashcardsSpec (records : List (List String)) : List (String × String) :=
  records.map fun r =>
    ( if r.getD 0 "" = "-" then r.getD 1 "" else r.getD 0 "" ++ " " ++ r.getD 1 ""
    , r.getD 3 "" ++ "<br>" ++ "<br>" ++ "Plural: " ++ r.getD 2 "" ++ "<br>"
        ++ "🇩🇪 " ++ r.getD 4 "" ++ "<br>" ++ "🇭🇺 " ++ r.getD 5 "" )

/-- A token that cannot be accepted against an existing-words list `E`:
its own lowercase form is already in `E`, or normalization fails, or the
normalized record's word is already in `E` (lowercased). -/
def notAcceptable (respond : String → Option String) (E : List String)
    (w : String) : Prop :=
  pyLower w ∈ E ∨ get_word_details respond w = none ∨
    ∃ p0 p1 r, get_word_details respond w = some (p0 :: p1 :: r) ∧ pyLower p1 ∈ E

/-! ## Helper lemmas -/

/-- Whenever `parseDataLine` succeeds, the record has at least two fields:
the only `some` results are built from a two-or-more-element pattern. -/
theorem parseDataLine_shape {line : String} {l : List String}
    (h : parseDataLine line = some l) : ∃ p0 p1 r, l = p0 :: p1 :: r := by
  simp only [parseDataLine] at h
  split at h
  · exact absurd h (by simp)
  · split at h
    · split at h <;> exact ⟨_, _, _, (Option.some.injEq _ _ ▸ h).symm⟩
    · exact absurd h (by simp)

/-- Whenever `get_word_details` succeeds, the record has at least two
fields. -/
theorem get_word_details_shape {respond : String → Option String}
    {w : String} {l : List String}
    (h : get_word_details respond w = some l) : ∃ p0 p1 r, l = p0 :: p1 :: r := by
  unfold get_word_details at h
  split at h
  · exact absurd h (by simp)
  · exact parseDataLine_shape h

/-- Exhaustive case analysis of one iteration of the ingestion loop: each
token is either skipped as a raw duplicate (no model call, state
unchanged), rejected as invalid (model called), skipped as a duplicate
after lemmatization (model called), or accepted (model called, record
appended, its lowercased word added to the existing set). -/
theorem processWord_cases (respond : String → Option String)
    (st : BatchState) (w : String) :
    (pyLower w ∈ st.existing ∧
      processWord respond st w = (st, some (.skippedDuplicate w))) ∨
    (pyLower w ∉ st.existing ∧ get_word_details respond w = none ∧
      processWord respond st w =
        ({ st with calls := st.calls ++ [w] }, some (.rejectedInvalid w))) ∨
    (∃ p0 p1 r, pyLower w ∉ st.existing ∧
      get_word_details respond w = some (p0 :: p1 :: r) ∧
      pyLower p1 ∈ st.existing ∧
      processWord respond st w =
        ({ st with calls := st.calls ++ [w] },
          some (.skippedDuplicateResolved w p1))) ∨
    (∃ p0 p1 r, pyLower w ∉ st.existing ∧
      get_word_details respond w = some (p0 :: p1 :: r) ∧
      pyLower p1 ∉ st.existing ∧
      processWord respond st w =
        ({ existing := st.existing ++ [pyLower p1],
           store := st.store ++ [p0 :: p1 :: r],
           success_count := st.success_count + 1,
           calls := st.calls ++ [w] },
          some (.accepted w (p0 :: p1 :: r)))) := by
  by_cases hmem : pyLower w ∈ st.existing
  · exact Or.inl ⟨hmem, by simp [processWord, hmem]⟩
  · cases hgw : get_word_details respond w with
    | none =>
      exact Or.inr (Or.inl ⟨hmem, rfl, by simp [processWord, hmem, hgw]⟩)
    | some l =>
      obtain ⟨p0, p1, r, rfl⟩ := get_word_details_shape hgw
      by_cases hdup : pyLower p1 ∈ st.existing
      · exact Or.inr (Or.inr (Or.inl
          ⟨p0, p1, r, hmem, rfl, hdup, by simp [processWord, hmem, hgw, hdup]⟩))
      · exact Or.inr (Or.inr (Or.inr
          ⟨p0, p1, r, hmem, rfl, hdup, by simp [processWord, hmem, hgw, hdup]⟩))

/-- The ingestion loop only extends the existing-words list and the store:
the final state's `existing` and `store` are the initial ones followed by
what the batch produced. -/
theorem runBatch_extend (respond : String → Option String) (tokens : List String) :
    ∀ st : BatchState, ∃ dE dS,
      ((runBatch respond tokens st).1).existing = st.existing ++ dE ∧
      ((runBatch respond tokens st).1).store = st.store ++ dS := by
  induction tokens with
  | nil => exact fun st => ⟨[], [], by simp [runBatch], by simp [runBatch]⟩
  | cons w rest ih =>
    intro st
    rcases processWord_cases respond st w with
      ⟨hmem, heq⟩ | ⟨hmem, hgw, heq⟩ | ⟨p0, p1, r, hmem, hgw, hdup, heq⟩ |
      ⟨p0, p1, r, hmem, hgw, hdup, heq⟩
    · obtain ⟨dE, dS, hE, hS⟩ := ih st
      exact ⟨dE, dS, by simp [runBatch, heq, hE], by simp [runBatch, heq, hS]⟩
    · obtain ⟨dE, dS, hE, hS⟩ := ih { st with calls := st.calls ++ [w] }
      exact ⟨dE, dS, by simp [runBatch, heq, hE], by simp [runBatch, heq, hS]⟩
    · obtain ⟨dE, dS, hE, hS⟩ := ih { st with calls := st.calls ++ [w] }
      exact ⟨dE, dS, by simp [runBatch, heq, hE], by simp [runBatch, heq, hS]⟩
    · obtain ⟨dE, dS, hE, hS⟩ := ih
        { existing := st.existing ++ [pyLower p1],
          store := st.store ++ [p0 :: p1 :: r],
          success_count := st.success_count + 1,
          calls := st.calls ++ [w] }
      exact ⟨pyLower p1 :: dE, (p0 :: p1 :: r) :: dS,
        by simp [runBatch, heq, hE], by simp [runBatch, heq, hS]⟩

/-- The snapshot invariant of the loop: if the existing-words list is
exactly the store's lowercased word column, it stays so through the batch
(the loop appends `clean_word.lower()` exactly when it appends the record
whose word field is `clean_word`). -/
theorem runBatch_snapshot (respond : String → Option String) (tokens : List String) :
    ∀ st : BatchState, st.existing = st.store.map wordKey →
      ((runBatch respond tokens st).1).existing =
        ((runBatch respond tokens st).1).store.map wordKey := by
  induction tokens with
  | nil => intro st h; simpa [runBatch] using h
  | cons w rest ih =>
    intro st h
    rcases processWord_cases respond st w with
      ⟨hmem, heq⟩ | ⟨hmem, hgw, heq⟩ | ⟨p0, p1, r, hmem, hgw, hdup, heq⟩ |
      ⟨p0, p1, r, hmem, hgw, hdup, heq⟩
    · simpa [runBatch, heq] using ih st h
    · simpa [runBatch, heq] using ih { st with calls := st.calls ++ [w] } h
    · simpa [runBatch, heq] using ih { st with calls := st.calls ++ [w] } h
    · have hnext := ih
        (BatchState.mk (st.existing ++ [pyLower p1]) (st.store ++ [p0 :: p1 :: r])
          (st.success_count + 1) (st.calls ++ [w]))
        (by simp [h, wordKey])
      simpa [runBatch, heq] using hnext

/-- The loop preserves distinctness of the existing-words list: a word is
appended only after the membership checks ruled it out. -/
theorem runBatch_nodup (respond : String → Option String) (tokens : List String) :
    ∀ st : BatchState, st.existing.Nodup →
      ((runBatch respond tokens st).1).existing.Nodup := by
  induction tokens with
  | nil => intro st h; simpa [runBatch] using h
  | cons w rest ih =>
    intro st h
    rcases processWord_cases respond st w with
      ⟨hmem, heq⟩ | ⟨hmem, hgw, heq⟩ | ⟨p0, p1, r, hmem, hgw, hdup, heq⟩ |
      ⟨p0, p1, r, hmem, hgw, hdup, heq⟩
    · simpa [runBatch, heq] using ih st h
    · simpa [runBatch, heq] using ih { st with calls := st.calls ++ [w] } h
    · simpa [runBatch, heq] using ih { st with calls := st.calls ++ [w] } h
    · have hnext := ih
        (BatchState.mk (st.existing ++ [pyLower p1]) (st.store ++ [p0 :: p1 :: r])
          (st.success_count + 1) (st.calls ++ [w]))
        (by simp [List.nodup_append, h, hdup])
      simpa [runBatch, heq] using hnext

/-- After a batch, every input token is saturated: it is a raw duplicate
of the final existing-words list, or it normalizes to `None`, or its
normalized word is in the final existing-words list.  This is what makes
a second identical run accept nothing. -/
theorem runBatch_saturates (respond : String → Option String) (tokens : List String) :
    ∀ st : BatchState, ∀ w ∈ tokens,
      notAcceptable respond ((runBatch respond tokens st).1).existing w := by
  induction tokens with
  | nil => intro st w hw; cases hw
  | cons w rest ih =>
    intro st w' hw'
    rcases processWord_cases respond st w with
      ⟨hmem, heq⟩ | ⟨hmem, hgw, heq⟩ | ⟨p0, p1, r, hmem, hgw, hdup, heq⟩ |
      ⟨p0, p1, r, hmem, hgw, hdup, heq⟩
    · rcases List.mem_cons.mp hw' with rfl | hw'
      · obtain ⟨dE, _, hE, _⟩ := runBatch_extend respond rest st
        refine Or.inl ?_
        simp only [runBatch, heq, hE]
        exact List.mem_append.mpr (Or.inl hmem)
      · simpa [runBatch, heq] using ih st w' hw'
    · rcases List.mem_cons.mp hw' with rfl | hw'
      · exact Or.inr (Or.inl hgw)
      · simpa [runBatch, heq] using ih { st with calls := st.calls ++ [w] } w' hw'
    · rcases List.mem_cons.mp hw' with rfl | hw'
      · obtain ⟨dE, _, hE, _⟩ := runBatch_extend respond rest
          { st with calls := st.calls ++ [w'] }
        refine Or.inr (Or.inr ⟨p0, p1, r, hgw, ?_⟩)
        simp only [runBatch, heq, hE]
        exact List.mem_append.mpr (Or.inl hdup)
      · simpa [runBatch, heq] using ih { st with calls := st.calls ++ [w] } w' hw'
    · rcases List.mem_cons.mp hw' with rfl | hw'
      · obtain ⟨dE, _, hE, _⟩ := runBatch_extend respond rest
          (BatchState.mk (st.existing ++ [pyLower p1]) (st.store ++ [p0 :: p1 :: r])
            (st.success_count + 1) (st.calls ++ [w']))
        refine Or.inr (Or.inr ⟨p0, p1, r, hgw, ?_⟩)
        simp only [runBatch, heq, hE]
        simp
      · have hnext := ih
          (BatchState.mk (st.existing ++ [pyLower p1]) (st.store ++ [p0 :: p1 :: r])
            (st.success_count + 1) (st.calls ++ [w])) w' hw'
        simpa [runBatch, heq] using hnext

/-- A batch in which every token is already saturated against the starting
existing-words list accepts nothing: the counter does not move and no
outcome is an acceptance (and the existing-words list never changes). -/
theorem runBatch_no_accept (respond : String → Option String) (tokens : List String) :
    ∀ st : BatchState, (∀ w ∈ tokens, notAcceptable respond st.existing w) →
      ((runBatch respond tokens st).1).success_count = st.success_count ∧
      ∀ o ∈ (runBatch respond tokens st).2, ∀ t rec, o ≠ Outcome.accepted t rec := by
  induction tokens with
  | nil => intro st _; exact ⟨by simp [runBatch], by simp [runBatch]⟩
  | cons w rest ih =>
    intro st hsat
    have hw : notAcceptable respond st.existing w := hsat w (by simp)
    have hrest : ∀ w' ∈ rest, notAcceptable respond st.existing w' :=
      fun w' hw' => hsat w' (by simp [hw'])
    rcases processWord_cases respond st w with
      ⟨hmem, heq⟩ | ⟨hmem, hgw, heq⟩ | ⟨p0, p1, r, hmem, hgw, hdup, heq⟩ |
      ⟨p0, p1, r, hmem, hgw, hdup, heq⟩
    · obtain ⟨h1, h2⟩ := ih st hrest
      refine ⟨by simpa [runBatch, heq] using h1, ?_⟩
      intro o ho t rec
      simp only [runBatch, heq, List.mem_cons] at ho
      rcases ho with ho | ho
      · simp [ho]
      · exact h2 o ho t rec
    · obtain ⟨h1, h2⟩ := ih { st with calls := st.calls ++ [w] } hrest
      refine ⟨by simpa [runBatch, heq] using h1, ?_⟩
      intro o ho t rec
      simp only [runBatch, heq, List.mem_cons] at ho
      rcases ho with ho | ho
      · simp [ho]
      · exact h2 o ho t rec
    · obtain ⟨h1, h2⟩ := ih { st with calls := st.calls ++ [w] } hrest
      refine ⟨by simpa [runBatch, heq] using h1, ?_⟩
      intro o ho t rec
      simp only [runBatch, heq, List.mem_cons] at ho
      rcases ho with ho | ho
      · simp [ho]
      · exact h2 o ho t rec
    · exfalso
      rcases hw with hw | hw | ⟨q0, q1, q, hq, hqmem⟩
      · exact hmem hw
      · rw [hgw] at hw; cases hw
      · rw [hgw] at hq
        injection hq with hq1
        injection hq1 with hq2 hq3
        injection hq3 with hq4 hq5
        exact hdup (by rwa [← hq4] at hqmem)

/-- `trimChars` is right-trimming after left-trimming, in terms of
Mathlib's `rdropWhile`. -/
theorem trimChars_eq (l : List Char) :
    trimChars l = List.rdropWhile isPySpace (l.dropWhile isPySpace) := rfl

/-- The last character of a trimmed list is not whitespace. -/
theorem trimChars_getLast_not_space {l : List Char} {c : Char}
    (h : (trimChars l).getLast? = some c) : isPySpace c = false := by
  rw [trimChars_eq] at h
  have hne : List.rdropWhile isPySpace (l.dropWhile isPySpace) ≠ [] := by
    intro hnil; rw [hnil] at h; cases h
  have hlast := List.rdropWhile_last_not (l := l.dropWhile isPySpace)
    (p := isPySpace) hne
  rw [List.getLast?_eq_getLast _ hne] at h
  have hc := Option.some.inj h
  rw [hc] at hlast
  simpa using hlast

/-- The first character of a trimmed list is not whitespace. -/
theorem trimChars_head_not_space {l : List Char} {c : Char}
    (h : (trimChars l).head? = some c) : isPySpace c = false := by
  have hx : (l.dropWhile isPySpace).head? = some c := by
    obtain ⟨pre, hpre⟩ := List.dropWhile_suffix (l := (l.dropWhile isPySpace).reverse)
      isPySpace
    have hdecomp : l.dropWhile isPySpace =
        List.rdropWhile isPySpace (l.dropWhile isPySpace) ++ pre.reverse := by
      have := congrArg List.reverse hpre
      simpa [List.rdropWhile] using this.symm
    rw [hdecomp, List.head?_append, ← trimChars_eq, h]
    rfl
  have := List.head?_dropWhile_not isPySpace l
  rw [hx] at this
  exact this

/-- A list of whitespace characters trims to the empty list. -/
theorem trimChars_eq_nil_of_space {l : List Char}
    (h : ∀ c ∈ l, isPySpace c = true) : trimChars l = [] := by
  have : l.dropWhile isPySpace = [] := List.dropWhile_eq_nil_iff.mpr h
  rw [trimChars_eq, this]
  simp

/-- `splitChar` always returns at least one piece. -/
theorem splitChar_ne_nil (sep : Char) : ∀ l : List Char, splitChar sep l ≠ [] := by
  intro l
  induction l with
  | nil => simp [splitChar]
  | cons x rest ih =>
    simp only [splitChar]
    split
    · simp
    · split
      · simp
      · simp

/-- Every character of every piece produced by `splitChar` occurs in the
input and is not the separator. -/
theorem mem_splitChar {sep : Char} :
    ∀ {l pl : List Char}, pl ∈ splitChar sep l → ∀ c ∈ pl, c ∈ l ∧ c ≠ sep := by
  intro l
  induction l with
  | nil =>
    intro pl hpl c hc
    simp only [splitChar, List.mem_singleton] at hpl
    subst hpl
    cases hc
  | cons x rest ih =>
    intro pl hpl c hc
    simp only [splitChar] at hpl
    by_cases hx : x == sep
    · rw [if_pos hx] at hpl
      rcases List.mem_cons.mp hpl with rfl | hpl
      · cases hc
      · obtain ⟨h1, h2⟩ := ih hpl c hc
        exact ⟨List.mem_cons_of_mem _ h1, h2⟩
    · rw [if_neg hx] at hpl
      cases hS : splitChar sep rest with
      | nil => exact absurd hS (splitChar_ne_nil sep rest)
      | cons hh tt =>
        rw [hS] at hpl
        rcases List.mem_cons.mp hpl with rfl | hpl
        · rcases List.mem_cons.mp hc with rfl | hc
          · exact ⟨List.mem_cons_self _ _, by simpa using hx⟩
          · obtain ⟨h1, h2⟩ := ih (hS ▸ List.mem_cons_self hh tt) c hc
            exact ⟨List.mem_cons_of_mem _ h1, h2⟩
        · obtain ⟨h1, h2⟩ := ih (hS ▸ List.mem_cons_of_mem hh hpl) c hc
          exact ⟨List.mem_cons_of_mem _ h1, h2⟩

/-- Refinement of the data-line parsing: away from the INVALID case, the
code's `parseDataLine` is field splitting/trimming/padding as the spec
words it, followed by the word-field post-processing as the spec words
it.  Shared by the claims about the parsing stages. -/
theorem parseDataLine_eq_spec (line : String)
    (h : containsStr (pyUpper line) "INVALID" = false) :
    parseDataLine line = fixWordSpec (splitFieldsSpec line) := by
  simp only [parseDataLine, splitFieldsSpec, fixWordSpec, h, Bool.false_eq_true,
    if_false]

/-! ## Claim theorems -/

/-- C1, amended: `get_word_details` returns either the `Invalid` signal
(`None`) or a parsed record with at least 2 fields (field accesses 0 and 1
always succeed); the original claim that every returned record has exactly
6 fields is refuted by `c1_counterexample`. -/
theorem c1_record_has_at_least_two_fields
    (respond : String → Option String) (input : String) (l : List String)
    (h : get_word_details respond input = some l) : 2 ≤ l.length := by
  obtain ⟨p0, p1, r, rfl⟩ := get_word_details_shape h
  simp

/-- Witness for C1's amended theorem at a concrete 6-field response. -/
theorem c1_record_has_at_least_two_fields_witness :
    2 ≤ (["der", "Hund", "Hunde", "kutya", "s1", "s2"] : List String).length :=
  c1_record_has_at_least_two_fields
    (fun _ => some "der | Hund | Hunde | kutya | s1 | s2") "Hund"
    ["der", "Hund", "Hunde", "kutya", "s1", "s2"] (by decide)

/-- C1 counterexample: on the response `"der|Hund"` the code returns a
parsed record with only 2 fields, not the `Invalid` signal and not a
6-field record — it is neither fully populated nor `None`. -/
theorem c1_counterexample :
    get_word_details (fun _ => some "der|Hund") "Hund" = some ["der", "Hund"] ∧
    (["der", "Hund"] : List String).length ≠ 6 :=
  ⟨by decide, by decide⟩

/-- C2: case-insensitive uniqueness of the word column is an invariant of
the store preserved by a batch run: if the existing-words list is the
store's lowercased word column and that column is duplicate-free at batch
start, then after the batch the store is the old store plus the appended
records and its lowercased word column is still duplicate-free. -/
theorem c2_case_insensitive_uniqueness_preserved
    (respond : String → Option String) (tokens : List String) (st : BatchState)
    (hsnap : st.existing = st.store.map wordKey)
    (hnodup : (st.store.map wordKey).Nodup) :
    ∃ appended,
      ((runBatch respond tokens st).1).store = st.store ++ appended ∧
      ((st.store ++ appended).map wordKey).Nodup := by
  obtain ⟨dE, dS, hE, hS⟩ := runBatch_extend respond tokens st
  refine ⟨dS, hS, ?_⟩
  have h1 := runBatch_nodup respond tokens st (by rw [hsnap]; exact hnodup)
  have h2 := runBatch_snapshot respond tokens st hsnap
  rw [← hS, ← h2]
  exact h1

/-- Witness for C2 at a concrete one-token batch over a one-record store. -/
theorem c2_case_insensitive_uniqueness_preserved_witness :
    ∃ appended,
      ((runBatch (fun _ => some "die | Katze | Katzen | macska | s1 | s2")
        ["Katze"]
        ⟨["hund"], [["der", "Hund", "Hunde", "kutya", "s1", "s2"]], 0, []⟩).1).store
        = [["der", "Hund", "Hunde", "kutya", "s1", "s2"]] ++ appended ∧
      (([["der", "Hund", "Hunde", "kutya", "s1", "s2"]] ++ appended).map wordKey).Nodup :=
  c2_case_insensitive_uniqueness_preserved
    (fun _ => some "die | Katze | Katzen | macska | s1 | s2") ["Katze"]
    ⟨["hund"], [["der", "Hund", "Hunde", "kutya", "s1", "s2"]], 0, []⟩
    (by decide) (by decide)

/-- C3: the batch produces exactly one outcome per input token, in input
order (the outcome sequence maps back to the token sequence), for every
oracle — in particular a `None` normalization (invalid result or caught
service exception) never aborts the batch. -/
theorem c3_one_outcome_per_token_in_order
    (respond : String → Option String) (tokens : List String) (st : BatchState) :
    ((runBatch respond tokens st).2).length = tokens.length ∧
    ((runBatch respond tokens st).2).map Outcome.token = tokens := by
  induction tokens generalizing st with
  | nil => simp [runBatch]
  | cons w rest ih =>
    rcases processWord_cases respond st w with
      ⟨hmem, heq⟩ | ⟨hmem, hgw, heq⟩ | ⟨p0, p1, r, hmem, hgw, hdup, heq⟩ |
      ⟨p0, p1, r, hmem, hgw, hdup, heq⟩
    · obtain ⟨ih1, ih2⟩ := ih st
      exact ⟨by simp [runBatch, heq, ih1], by simp [runBatch, heq, Outcome.token, ih2]⟩
    · obtain ⟨ih1, ih2⟩ := ih { st with calls := st.calls ++ [w] }
      exact ⟨by simp [runBatch, heq, ih1], by simp [runBatch, heq, Outcome.token, ih2]⟩
    · obtain ⟨ih1, ih2⟩ := ih { st with calls := st.calls ++ [w] }
      exact ⟨by simp [runBatch, heq, ih1], by simp [runBatch, heq, Outcome.token, ih2]⟩
    · obtain ⟨ih1, ih2⟩ := ih
        (BatchState.mk (st.existing ++ [pyLower p1]) (st.store ++ [p0 :: p1 :: r])
          (st.success_count + 1) (st.calls ++ [w]))
      exact ⟨by simp [runBatch, heq, ih1], by simp [runBatch, heq, Outcome.token, ih2]⟩

/-- C4: a token whose lowercase form is already in the existing-words list
at the time it is processed is skipped as a duplicate with the state
unchanged — in particular no token is added to `calls`, i.e. the
Lemmatizer Client is not called — and the batch continues with the
remaining tokens from the same state. -/
theorem c4_duplicate_skipped_without_model_call
    (respond : String → Option String) (st : BatchState) (w : String)
    (rest : List String) (h : pyLower w ∈ st.existing) :
    processWord respond st w = (st, some (.skippedDuplicate w)) ∧
    runBatch respond (w :: rest) st =
      ((runBatch respond rest st).1,
        Outcome.skippedDuplicate w :: (runBatch respond rest st).2) := by
  have h1 : processWord respond st w = (st, some (.skippedDuplicate w)) := by
    simp [processWord, h]
  exact ⟨h1, by simp [runBatch, h1]⟩

/-- Witness for C4 at a concrete duplicate token. -/
theorem c4_duplicate_skipped_without_model_call_witness :
    processWord (fun _ => none) ⟨["hund"], [], 0, []⟩ "Hund"
      = (⟨["hund"], [], 0, []⟩, some (.skippedDuplicate "Hund")) ∧
    runBatch (fun _ => none) ["Hund"] ⟨["hund"], [], 0, []⟩
      = ((runBatch (fun _ => none) [] ⟨["hund"], [], 0, []⟩).1,
          Outcome.skippedDuplicate "Hund"
            :: (runBatch (fun _ => none) [] ⟨["hund"], [], 0, []⟩).2) :=
  c4_duplicate_skipped_without_model_call (fun _ => none)
    ⟨["hund"], [], 0, []⟩ "Hund" [] (by decide)

/-- C5: batch-level idempotence.  The normalization oracle is a function,
hence deterministic; if the second run starts from the store as the first
run left it (existing words rebuilt from that store's word column, counter
reset), it accepts zero records: the counter stays 0 and no per-token
outcome is an acceptance. -/
theorem c5_second_run_accepts_nothing
    (respond : String → Option String) (tokens : List String) (st : BatchState)
    (hsnap : st.existing = st.store.map wordKey) :
    ((runBatch respond tokens
      (BatchState.mk (((runBatch respond tokens st).1).store.map wordKey)
        (((runBatch respond tokens st).1).store) 0 [])).1).success_count = 0 ∧
    ∀ o ∈ (runBatch respond tokens
      (BatchState.mk (((runBatch respond tokens st).1).store.map wordKey)
        (((runBatch respond tokens st).1).store) 0 [])).2,
      ∀ t rec, o ≠ Outcome.accepted t rec := by
  have hgood := runBatch_snapshot respond tokens st hsnap
  have hsat2 : ∀ w ∈ tokens,
      notAcceptable respond (((runBatch respond tokens st).1).store.map wordKey) w := by
    intro w hw
    have hs := runBatch_saturates respond tokens st w hw
    rwa [hgood] at hs
  have hfin := runBatch_no_accept respond tokens
    (BatchState.mk (((runBatch respond tokens st).1).store.map wordKey)
      (((runBatch respond tokens st).1).store) 0 []) hsat2
  simpa using hfin

/-- Witness for C5 at a concrete batch run twice from an empty store. -/
theorem c5_second_run_accepts_nothing_witness :
    ((runBatch (fun _ => some "der | Hund | Hunde | kutya | s1 | s2") ["Hunde"]
      (BatchState.mk
        (((runBatch (fun _ => some "der | Hund | Hunde | kutya | s1 | s2")
            ["Hunde"] ⟨[], [], 0, []⟩).1).store.map wordKey)
        (((runBatch (fun _ => some "der | Hund | Hunde | kutya | s1 | s2")
            ["Hunde"] ⟨[], [], 0, []⟩).1).store) 0 [])).1).success_count = 0 ∧
    ∀ o ∈ (runBatch (fun _ => some "der | Hund | Hunde | kutya | s1 | s2") ["Hunde"]
      (BatchState.mk
        (((runBatch (fun _ => some "der | Hund | Hunde | kutya | s1 | s2")
            ["Hunde"] ⟨[], [], 0, []⟩).1).store.map wordKey)
        (((runBatch (fun _ => some "der | Hund | Hunde | kutya | s1 | s2")
            ["Hunde"] ⟨[], [], 0, []⟩).1).store) 0 [])).2,
      ∀ t rec, o ≠ Outcome.accepted t rec :=
  c5_second_run_accepts_nothing
    (fun _ => some "der | Hund | Hunde | kutya | s1 | s2") ["Hunde"]
    ⟨[], [], 0, []⟩ (by decide)

/-- When every response line is a header line or blank, the data-line scan
comes up empty. -/
theorem findDataLine_eq_empty {lines : List String}
    (h : ∀ line ∈ lines, containsStr line "Article | Word" = true ∨ pyStrip line = "") :
    findDataLine lines = "" := by
  induction lines with
  | nil => rfl
  | cons line rest ih =>
    have htail : findDataLine rest = "" := ih fun l hl => h l (List.mem_cons_of_mem _ hl)
    rcases h line (List.mem_cons_self _ _) with hh | hh
    · simpa [findDataLine, hh] using htail
    · by_cases hc : containsStr line "Article | Word" = true
      · simpa [findDataLine, hc] using htail
      · simpa [findDataLine, hc, hh] using htail

/-- C6: `get_word_details` returns `None` whenever the service call raises
(oracle `none`), or every line of the response is a header line or blank
(no data line exists), or the located data line contains `INVALID` as a
case-insensitive substring — and in the failure case the exception is
absorbed rather than propagated. -/
theorem c6_invalid_conditions_yield_none
    (respond : String → Option String) (input : String) :
    (respond input = none → get_word_details respond input = none) ∧
    (∀ c, respond input = some c →
      (∀ line ∈ responseLines c,
        containsStr line "Article | Word" = true ∨ pyStrip line = "") →
      get_word_details respond input = none) ∧
    (∀ c, respond input = some c →
      containsStr (pyUpper (findDataLine (responseLines c))) "INVALID" = true →
      get_word_details respond input = none) := by
  refine ⟨fun h => by simp [get_word_details, h], ?_, ?_⟩
  · intro c hc hlines
    have hdl : findDataLine (responseLines c) = "" := findDataLine_eq_empty hlines
    simp [get_word_details, hc, get_word_details_content, hdl]
    decide
  · intro c hc hmark
    simp [get_word_details, hc, get_word_details_content, parseDataLine, hmark]

/-- Witness for C6: a raised service call, a header-only response, and an
INVALID response all yield `None`. -/
theorem c6_invalid_conditions_yield_none_witness :
    get_word_details (fun _ => none) "x" = none ∧
    get_word_details (fun _ => some "Article | Word | Plural | Hungarian | A | B") "x"
      = none ∧
    get_word_details (fun _ => some "this input is invalid") "x" = none :=
  ⟨(c6_invalid_conditions_yield_none (fun _ => none) "x").1 rfl,
   (c6_invalid_conditions_yield_none
      (fun _ => some "Article | Word | Plural | Hungarian | A | B") "x").2.1
     _ rfl (by decide),
   (c6_invalid_conditions_yield_none
      (fun _ => some "this input is invalid") "x").2.2 _ rfl (by decide)⟩

/-- C7: away from the INVALID case the located data line is parsed
exactly as the spec describes the splitting stage: split on `" | "` when
that spelling occurs in the line, otherwise on bare `"|"`; trim every
field; pad a 5-field split with an empty 6th field instead of failing
(`splitFieldsSpec` transcribes this wording); the only later change is the
word-field post-processing stage. -/
theorem c7_delimiters_trimming_padding (line : String)
    (h : containsStr (pyUpper line) "INVALID" = false) :
    parseDataLine line = fixWordSpec (splitFieldsSpec line) :=
  parseDataLine_eq_spec line h

/-- Witness for C7 at a concrete 5-field line (padded to 6). -/
theorem c7_delimiters_trimming_padding_witness :
    parseDataLine " a | b | c | d | e " =
      fixWordSpec (splitFieldsSpec " a | b | c | d | e ") :=
  c7_delimiters_trimming_padding " a | b | c | d | e " (by decide)

/-- C8: on a data line whose split fields are `p0 :: p1 :: rest`, the word
field `p1` is stripped of the resolved article prefix exactly when the
lowercased word starts with the lowercased article followed by a space and
that article is one of `der`, `die`, `das`; in every other case the fields
are returned unchanged. -/
theorem c8_article_prefix_stripping (line p0 p1 : String) (rest : List String)
    (hm : containsStr (pyUpper line) "INVALID" = false)
    (hsplit : splitFieldsSpec line = p0 :: p1 :: rest) :
    ((pyStartsWith (pyLower p1) (pyLower p0 ++ " ") &&
        (pyLower p0 == "der" || pyLower p0 == "die" || pyLower p0 == "das")) = true →
      parseDataLine line =
        some (p0 :: pyStrip (pyDrop (pyLower p0).length p1) :: rest)) ∧
    ((pyStartsWith (pyLower p1) (pyLower p0 ++ " ") &&
        (pyLower p0 == "der" || pyLower p0 == "die" || pyLower p0 == "das")) = false →
      parseDataLine line = some (p0 :: p1 :: rest)) := by
  have heq : parseDataLine line = fixWordSpec (p0 :: p1 :: rest) := by
    rw [parseDataLine_eq_spec line hm, hsplit]
  constructor
  · intro hcond
    rw [heq]
    simp [fixWordSpec, hcond]
  · intro hcond
    rw [heq]
    simp [fixWordSpec, hcond]

/-- Witness for C8: the word field `"der Hund"` with resolved article
`"der"` is stripped to `"Hund"`. -/
theorem c8_article_prefix_stripping_witness :
    parseDataLine "der | der Hund | Hunde | kutya | s1 | s2"
      = some ["der", "Hund", "Hunde", "kutya", "s1", "s2"] :=
  (c8_article_prefix_stripping "der | der Hund | Hunde | kutya | s1 | s2"
    "der" "der Hund" ["Hunde", "kutya", "s1", "s2"]
    (by decide) (by decide)).1 (by decide)

/-- The data of an appended string is the appended data. -/
theorem strData_append (a b : String) : (a ++ b).data = a.data ++ b.data := rfl

/-- String concatenation is associative. -/
theorem strAppend_assoc (a b c : String) : a ++ b ++ c = a ++ (b ++ c) :=
  String.ext (by simp [strData_append])

/-- Merging the literal label chunks of the card back: concatenating the
separate `<br>` markers and labels gives the single literals used by the
source's f-string. -/
theorem backSpec_merge (t p d h2 : String) :
    t ++ "<br>" ++ "<br>" ++ "Plural: " ++ p ++ "<br>" ++ "🇩🇪 " ++ d
        ++ "<br>" ++ "🇭🇺 " ++ h2
      = t ++ "<br><br>Plural: " ++ p ++ "<br>🇩🇪 " ++ d ++ "<br>🇭🇺 " ++ h2 := by
  have h1 : ("<br>" : String) ++ "<br>" ++ "Plural: " = "<br><br>Plural: " := by decide
  have hde : ("<br>" : String) ++ "🇩🇪 " = "<br>🇩🇪 " := by decide
  have hhu : ("<br>" : String) ++ "🇭🇺 " = "<br>🇭🇺 " := by decide
  rw [← h1, ← hde, ← hhu]
  simp [strAppend_assoc]

/-- The card back equals the spec's chunk-by-chunk concatenation. -/
theorem ankiBack_eq_spec (r : List String) :
    ankiBack r = r.getD 3 "" ++ "<br>" ++ "<br>" ++ "Plural: " ++ r.getD 2 ""
      ++ "<br>" ++ "🇩🇪 " ++ r.getD 4 "" ++ "<br>" ++ "🇭🇺 " ++ r.getD 5 "" :=
  (backSpec_merge (r.getD 3 "") (r.getD 2 "") (r.getD 4 "") (r.getD 5 "")).symm

/-- The card front written with a propositional sentinel test. -/
theorem ankiFront_eq_spec (r : List String) :
    ankiFront r =
      if r.getD 0 "" = "-" then r.getD 1 "" else r.getD 0 "" ++ " " ++ r.getD 1 "" := by
  by_cases h : r.getD 0 "" = "-" <;> simp [ankiFront, h]

/-- C9: the export produces one front/back pair per record, in order;
front is article, space, word unless the article is the sentinel `-`,
in which case it is just the word; back is the translation followed by
the labeled plural and the two labeled example sentences joined with the
`<br>` marker; and the serialized export is one semicolon-delimited
`front;back` line per record with no header row. -/
theorem c9_flashcards_and_export (records : List (List String)) :
    (toFlashcards records).length = records.length ∧
    toFlashcards records = toFlashcardsSpec records ∧
    (∀ a w pl tr de hu : String, a ≠ "-" →
      ankiFront [a, w, pl, tr, de, hu] = a ++ " " ++ w) ∧
    (∀ w pl tr de hu : String, ankiFront ["-", w, pl, tr, de, hu] = w) ∧
    (∀ a w pl tr de hu : String,
      ankiBack [a, w, pl, tr, de, hu]
        = tr ++ "<br><br>Plural: " ++ pl ++ "<br>🇩🇪 " ++ de ++ "<br>🇭🇺 " ++ hu) ∧
    ankiCsv records = String.join (records.map fun r =>
      csvField (ankiFront r) ++ ";" ++ csvField (ankiBack r) ++ "\n") := by
  refine ⟨by simp [toFlashcards], ?_, ?_, ?_, ?_, ?_⟩
  · simp only [toFlashcards, toFlashcardsSpec]
    apply List.map_congr_left
    intro r _
    rw [ankiFront_eq_spec, ankiBack_eq_spec]
  · intro a w pl tr de hu ha
    simp [ankiFront, ha]
  · intro w pl tr de hu
    simp [ankiFront]
  · intro a w pl tr de hu
    simp [ankiBack]
  · simp only [ankiCsv, toFlashcards, List.map_map]
    rfl

/-- Witness for C9 at a noun record and a verb record. -/
theorem c9_flashcards_and_export_witness :
    ankiFront ["der", "Hund", "Hunde", "kutya", "s1", "s2"] = "der Hund" ∧
    ankiFront ["-", "laufen", "-", "futni", "s1", "s2"] = "laufen" ∧
    ankiBack ["der", "Hund", "Hunde", "kutya", "s1", "s2"]
      = "kutya<br><br>Plural: Hunde<br>🇩🇪 s1<br>🇭🇺 s2" :=
  ⟨(c9_flashcards_and_export []).2.2.1 "der" "Hund" "Hunde" "kutya" "s1" "s2"
      (by decide),
   (c9_flashcards_and_export []).2.2.2.1 "laufen" "-" "futni" "s1" "s2",
   (c9_flashcards_and_export []).2.2.2.2.1 "der" "Hund" "Hunde" "kutya" "s1" "s2"⟩

/-- C10: every token produced by the bulk-input tokenizer is non-empty
and carries no leading or trailing whitespace, and an input consisting
only of commas, newlines and whitespace yields an empty batch. -/
theorem c10_tokenizer_tokens_trimmed_nonempty (raw_text : String) :
    (∀ t ∈ word_list raw_text, t ≠ "" ∧
      (∀ c, t.data.head? = some c → isPySpace c = false) ∧
      (∀ c, t.data.getLast? = some c → isPySpace c = false)) ∧
    ((∀ c ∈ raw_text.data, c = ',' ∨ c = '\n' ∨ isPySpace c = true) →
      word_list raw_text = []) := by
  constructor
  · intro t ht
    simp only [word_list, List.mem_map, List.mem_filter] at ht
    obtain ⟨w, ⟨hw, hne⟩, rfl⟩ := ht
    refine ⟨by simpa [pyStrip] using hne, ?_, ?_⟩
    · intro c hc
      exact trimChars_head_not_space hc
    · intro c hc
      exact trimChars_getLast_not_space hc
  · intro hall
    have hfilter :
        ((pySplitChar ','
          (String.mk (raw_text.data.map fun c => if c == '\n' then ',' else c))).filter
            fun w => pyStrip w != "") = [] := by
      apply List.filter_eq_nil_iff.mpr
      intro w hw
      simp only [pySplitChar, List.mem_map] at hw
      obtain ⟨pl, hpl, rfl⟩ := hw
      have hspace : ∀ c ∈ pl, isPySpace c = true := by
        intro c hc
        obtain ⟨hmem, hnc⟩ := mem_splitChar hpl c hc
        simp only [List.mem_map] at hmem
        obtain ⟨orig, horig, hfc⟩ := hmem
        rcases hall orig horig with rfl | rfl | hws
        · exact absurd (by simpa using hfc.symm) hnc
        · exact absurd (by simpa using hfc.symm) hnc
        · by_cases hnl : orig == '\n'
          · exact absurd (by simp [hnl] at hfc; exact hfc.symm) hnc
          · rw [if_neg (by simpa using (by simpa using hnl))] at hfc
            rw [← hfc]
            exact hws
      have : pyStrip (String.mk pl) = "" := by
        simp only [pyStrip]
        rw [trimChars_eq_nil_of_space hspace]
      simp [this]
    simp only [word_list, hfilter, List.map_nil]

/-- Witness for C10: a non-trivial input produces trimmed non-empty
tokens and an all-separator input produces the empty batch. -/
theorem c10_tokenizer_tokens_trimmed_nonempty_witness :
    ("Hund" ≠ "" ∧
      (∀ c, "Hund".data.head? = some c → isPySpace c = false) ∧
      (∀ c, "Hund".data.getLast? = some c → isPySpace c = false)) ∧
    word_list " ,\n ,,\t " = [] :=
  ⟨(c10_tokenizer_tokens_trimmed_nonempty " Hund , ").1 "Hund" (by decide),
   (c10_tokenizer_tokens_trimmed_nonempty " ,\n ,,\t ").2 (by decide)⟩

